import Mathlib

/-!
A verification development for the SpeedySpeech acoustic model
(src/TTS/tts/models/speedy_speech.py).

The tensor pipeline is embedded shallowly.  Per batch item, a feature map
is a function from channel and time indices to real values, masks are
0/1-valued functions of the time index, and integer-valued duration
tensors are functions into the natural numbers.  A batch is an index
`b : ℕ` ranging below a batch size `B`, and batched tensors are
batch-indexed families.  Sub-networks defined outside the embedded file
(the encoder, decoder, duration predictor, positional encoding and the
embedding tables) are abstract function parameters carried in a `Nets`
structure; where a claim depends on their behaviour, the behaviour is
modelled from the specification and marked as such.
-/

namespace SpeedySpeechModel

/-- A per-item feature vector over the time (or channel) axis. -/
abbrev Vec := ℕ → ℝ

/-- A per-item feature map: channel index, then time index. -/
abbrev Mat := ℕ → ℕ → ℝ

/-- Rounding as performed by torch.round: round to the nearest integer,
with ties (fractional part exactly one half) going to the even neighbour. -/
noncomputable def torchRound (x : ℝ) : ℤ :=
  if Int.fract x = 1 / 2 then (if Even ⌊x⌋ then ⌊x⌋ else ⌊x⌋ + 1) else round x

/-- Element-wise body of SpeedySpeech.format_durations (lines 64-68 of the
source): compute (exp(o_dr_log) - 1) * x_mask * length_scale, replace every
value below 1 by 1, and round with torch.round. -/
noncomputable def format_durations_elem (length_scale o_dr_log x_mask : ℝ) : ℝ :=
  ((torchRound (if (Real.exp o_dr_log - 1) * x_mask * length_scale < 1 then 1
      else (Real.exp o_dr_log - 1) * x_mask * length_scale) : ℤ) : ℝ)

/-- SpeedySpeech.format_durations applied over the token axis. -/
noncomputable def format_durations (length_scale : ℝ) (o_dr_log x_mask : Vec) : Vec :=
  fun t => format_durations_elem length_scale (o_dr_log t) (x_mask t)

/-- The post-processed durations are non-negative integer-valued reals, so
downstream uses of them as lengths are represented as natural numbers. -/
noncomputable def format_durations_nat (length_scale o_dr_log x_mask : ℝ) : ℕ :=
  (torchRound (if (Real.exp o_dr_log - 1) * x_mask * length_scale < 1 then 1
      else (Real.exp o_dr_log - 1) * x_mask * length_scale)).toNat

/-- The duration post-processing formula exactly as the specification
phrases it: round the larger of the scaled, masked, exponentiated value
and 1 (a clamp from below at 1).  Compared with the source-derived
`format_durations_elem` in the refinement theorem for claim C2. -/
noncomputable def format_durations_spec_elem (length_scale o_dr_log x_mask : ℝ) : ℝ :=
  ((torchRound (max ((Real.exp o_dr_log - 1) * x_mask * length_scale) 1) : ℤ) : ℝ)

/-- Modelled from the spec: `sequence_mask` lives in
TTS/tts/utils/generic_utils.py, which is not under src/.  Per batch item it
marks positions `t < len` as valid (value 1) and the remaining padding
positions with value 0. -/
def sequence_mask (len : ℕ) : Vec := fun t => if t < len then 1 else 0

/-- Cumulative duration: the total number of output frames consumed by the
tokens strictly before token `i`. -/
def cum_dur (dr : ℕ → ℕ) (i : ℕ) : ℕ := ∑ k in Finset.range i, dr k

/-- Modelled from the spec: `generate_path` lives in
TTS/tts/layers/glow_tts/monotonic_align.py, which is not under src/.  It
produces the monotonic binary path in which token `i` covers exactly the
output frames `j` with `cum_dur dr i ≤ j < cum_dur dr (i+1)` (token `i`
repeated `dr i` times, contiguously, with cumulative repeats matching the
cumulative durations), multiplied by the joint attention mask. -/
def generate_path (dr : ℕ → ℕ) (mask : ℕ → ℕ → ℝ) : ℕ → ℕ → ℝ :=
  fun i j =>
    (if cum_dur dr i ≤ j ∧ j < cum_dur dr (i + 1) then (1 : ℝ) else 0) * mask i j

/-- SpeedySpeech.expand_encoder_outputs (source lines 55-62), per batch
item.  The joint attention mask is the outer product of the input and
output sequence masks, the alignment is the generated path under that
mask, and the expanded representation is the matrix product of the
transposed alignment with the transposed encoder output, transposed back:
entry (c, j) sums `attn i j * en c i` over the `t_x` input positions. -/
def expand_encoder_outputs (t_x : ℕ) (en : Mat) (dr : ℕ → ℕ)
    (x_mask y_mask : Vec) : Mat × (ℕ → ℕ → ℝ) :=
  let attn := generate_path dr (fun i j => x_mask i * y_mask j)
  (fun c j => ∑ i in Finset.range t_x, attn i j * en c i, attn)

/-- Constructor configuration of SpeedySpeech (source lines 12-53). -/
structure Config where
  num_chars : ℕ
  out_channels : ℕ
  hidden_channels : ℕ
  positional_encoding : Bool
  length_scale : ℝ
  num_speakers : ℕ
  external_c : Bool
  c_in_channels : ℕ

/-- Modelled from the spec: the learned sub-networks instantiated in the
constructor (character embedding, Encoder, DurationPredictor,
PositionalEncoding, Decoder, the speaker embedding table and the optional
speaker projection) live in TTS/tts/layers/, not under src/.  They are
carried as abstract functions on per-item feature maps; the entry points
below wire them exactly as the source does. -/
structure Nets where
  emb : ℕ → Vec
  encoder : Mat → Vec → Mat
  duration_predictor : Mat → Vec → Vec
  pos_encoder : Mat → Vec → Mat
  decoder_core : Mat → Vec → Option Vec → Mat
  emb_g : ℕ → Vec
  proj_g : Vec → Vec

/-- The module owns a speaker embedding table exactly when
num_speakers > 1 and no external speaker vectors are used (source lines
47-50). -/
def has_emb_g (cfg : Config) : Bool := decide (1 < cfg.num_speakers) && !cfg.external_c

/-- The module owns a speaker projection exactly when c_in_channels is
positive and differs from hidden_channels (source lines 52-53). -/
def has_proj_g (cfg : Config) : Bool :=
  decide (0 < cfg.c_in_channels) && decide (cfg.c_in_channels ≠ cfg.hidden_channels)

/-- Modelled from the spec and the documented semantics of the host
framework: nn.functional.normalize rescales a vector to unit L2 norm
along the channel axis, guarding against division by zero with a small
epsilon. -/
noncomputable def l2normalize (c_in : ℕ) (v : Vec) : Vec :=
  fun c => v c / max (Real.sqrt (∑ k in Finset.range c_in, v k ^ 2)) (1e-12)

/-- The speaker argument of the entry points: absent, an internal speaker
id (looked up in the embedding table when the module owns one), or an
externally supplied speaker vector. -/
inductive GInput where
  | none : GInput
  | sid (i : ℕ) : GInput
  | vec (v : Vec) : GInput

/-- The speaker vector actually used downstream (source lines 83-87): a
table lookup followed by normalization when the module owns a table, the
external vector as-is otherwise. -/
noncomputable def resolve_g (cfg : Config) (nets : Nets) (g : GInput) : Option Vec :=
  if has_emb_g cfg then
    match g with
    | GInput.sid i => some (l2normalize cfg.c_in_channels (nets.emb_g i))
    | _ => Option.none
  else
    match g with
    | GInput.vec v => some v
    | _ => Option.none

/-- SpeedySpeech._concat_speaker_embedding (source lines 70-74): the
speaker vector, broadcast over time, is appended channel-wise after the
hidden channels. -/
def _concat_speaker_embedding (hidden : ℕ) (o_en : Mat) (g : Vec) : Mat :=
  fun c t => if c < hidden then o_en c t else g (c - hidden)

/-- SpeedySpeech._sum_speaker_embedding (source lines 76-80): project the
speaker vector to the hidden size when the module owns a projection, then
add it to every frame. -/
def _sum_speaker_embedding (cfg : Config) (nets : Nets) (x : Mat) (g : Vec) : Mat :=
  fun c t => x c t + (if has_proj_g cfg then nets.proj_g g else g) c

/-- Result of the encoder pass. -/
structure EncOut where
  o_en : Mat
  o_en_dp : Mat
  x_mask : Vec
  g : Option Vec

/-- SpeedySpeech._forward_encoder (source lines 82-106), per batch item:
embedding lookup then channel transpose, sequence mask from the declared
length, encoder pass, and speaker concatenation (for the duration
predictor only). -/
noncomputable def _forward_encoder (cfg : Config) (nets : Nets) (x : ℕ → ℕ)
    (x_len : ℕ) (g : GInput) : EncOut :=
  let gv := resolve_g cfg nets g
  let x_emb : Mat := fun c t => nets.emb (x t) c
  let x_mask := sequence_mask x_len
  let o_en := nets.encoder x_emb x_mask
  let o_en_dp := match gv with
    | some g0 => _concat_speaker_embedding cfg.hidden_channels o_en g0
    | Option.none => o_en
  ⟨o_en, o_en_dp, x_mask, gv⟩

/-- The tensor handed to the decoder stack inside
SpeedySpeech._forward_decoder (source lines 111-118): the expanded
encoder output, then the optional positional encoding, then the optional
additive speaker conditioning. -/
noncomputable def decoder_input (cfg : Config) (nets : Nets) (t_x : ℕ) (o_en : Mat)
    (dr : ℕ → ℕ) (x_mask y_mask : Vec) (g : Option Vec) : Mat :=
  let o_en_ex := (expand_encoder_outputs t_x o_en dr x_mask y_mask).1
  let o_en_ex2 := if cfg.positional_encoding then nets.pos_encoder o_en_ex y_mask else o_en_ex
  match g with
  | some g0 => _sum_speaker_embedding cfg nets o_en_ex2 g0
  | Option.none => o_en_ex2

/-- The per-item decoder output (source line 120).  Modelled from the
spec: the decoder is a residual convolutional block stack that preserves
the frame axis and masks padding throughout, so its output is an abstract
function of its input multiplied by the output mask. -/
noncomputable def item_o_de (cfg : Config) (nets : Nets) (t_x : ℕ) (o_en : Mat)
    (dr : ℕ → ℕ) (x_mask y_mask : Vec) (g : Option Vec) : Mat :=
  fun c t =>
    nets.decoder_core (decoder_input cfg nets t_x o_en dr x_mask y_mask g) y_mask g c t
      * y_mask t

/-- The shared frame-axis size of the batched output tensors: the source
computes the output mask with sequence_mask(y_lengths, None), whose time
dimension is the maximum of the supplied lengths over the batch. -/
def y_max_length (B : ℕ) (y_lengths : ℕ → ℕ) : ℕ :=
  Finset.sup (Finset.range B) y_lengths

/-- Result of the decoder pass over a batch. -/
structure DecOut where
  o_de : ℕ → Mat
  frames : ℕ
  attn : ℕ → ℕ → ℕ → ℝ

/-- SpeedySpeech._forward_decoder (source lines 108-121) over a batch:
output masks from the output lengths, expansion of each item by its
durations, positional encoding, speaker conditioning and decoder stack,
returning the decoder output and the alignment transposed to
(frame, token) orientation. -/
noncomputable def _forward_decoder (cfg : Config) (nets : Nets) (B t_x : ℕ)
    (o_en : ℕ → Mat) (dr : ℕ → ℕ → ℕ) (x_mask : ℕ → Vec) (y_lengths : ℕ → ℕ)
    (g : ℕ → Option Vec) : DecOut :=
  let y_mask := fun b => sequence_mask (y_lengths b)
  { o_de := fun b => item_o_de cfg nets t_x (o_en b) (dr b) (x_mask b) (y_mask b) (g b)
    frames := y_max_length B y_lengths
    attn := fun b j i =>
      (expand_encoder_outputs t_x (o_en b) (dr b) (x_mask b) (y_mask b)).2 i j }

/-- Result of the training entry point: features, log-durations and the
alignment. -/
structure ForwardOut where
  o_de : ℕ → Mat
  frames : ℕ
  o_dr_log : ℕ → Vec
  attn : ℕ → ℕ → ℕ → ℝ

/-- SpeedySpeech.forward (source lines 123-127): encoder pass, duration
predictor on the detached duration branch (value-level here; gradient
bookkeeping is modelled separately), decoder pass with the ground-truth
durations, returning features, squeezed log-durations and the alignment. -/
noncomputable def forward (cfg : Config) (nets : Nets) (B t_x : ℕ) (x : ℕ → ℕ → ℕ)
    (x_lengths y_lengths : ℕ → ℕ) (dr : ℕ → ℕ → ℕ) (g : ℕ → GInput) : ForwardOut :=
  let enc := fun b => _forward_encoder cfg nets (x b) (x_lengths b) (g b)
  let o_dr_log := fun b => nets.duration_predictor (enc b).o_en_dp (enc b).x_mask
  let dec := _forward_decoder cfg nets B t_x (fun b => (enc b).o_en) dr
      (fun b => (enc b).x_mask) y_lengths (fun b => (enc b).g)
  ⟨dec.o_de, dec.frames, o_dr_log, dec.attn⟩

/-- The padding applied by SpeedySpeech.inference (source line 131): five
trailing positions with the constant token id 0. -/
def pad_inference_input (t_x : ℕ) (x : ℕ → ℕ) : ℕ → ℕ :=
  fun t => if t < t_x then x t else 0

/-- The post-processed per-token durations computed by inference (source
lines 132-135), as natural numbers. -/
noncomputable def inference_durations (cfg : Config) (nets : Nets) (t_x : ℕ)
    (x : ℕ → ℕ) (x_len : ℕ) (g : GInput) : ℕ → ℕ :=
  let enc := _forward_encoder cfg nets (pad_inference_input t_x x) x_len g
  let o_dr_log := nets.duration_predictor enc.o_en_dp enc.x_mask
  fun t => format_durations_nat cfg.length_scale (o_dr_log t) (enc.x_mask t)

/-- The inferred output length of one item (source line 136): the sum of
the post-processed durations over all token positions of the padded
input. -/
noncomputable def inference_y_length (cfg : Config) (nets : Nets) (t_x : ℕ)
    (x : ℕ → ℕ) (x_len : ℕ) (g : GInput) : ℕ :=
  ∑ t in Finset.range (t_x + 5), inference_durations cfg nets t_x x x_len g t

/-- Result of the inference entry point: features and the alignment
only. -/
structure InferenceOut where
  o_de : ℕ → Mat
  frames : ℕ
  attn : ℕ → ℕ → ℕ → ℝ

/-- SpeedySpeech.inference (source lines 129-138): pad the input by five
trailing positions, encoder pass, duration prediction and
post-processing, output lengths from the summed durations, decoder pass,
returning only the features and the alignment. -/
noncomputable def inference (cfg : Config) (nets : Nets) (B t_x : ℕ)
    (x : ℕ → ℕ → ℕ) (x_lengths : ℕ → ℕ) (g : ℕ → GInput) : InferenceOut :=
  let enc := fun b => _forward_encoder cfg nets (pad_inference_input t_x (x b)) (x_lengths b) (g b)
  let o_dr := fun b => inference_durations cfg nets t_x (x b) (x_lengths b) (g b)
  let y_lengths := fun b => inference_y_length cfg nets t_x (x b) (x_lengths b) (g b)
  let dec := _forward_decoder cfg nets B (t_x + 5) (fun b => (enc b).o_en) o_dr
      (fun b => (enc b).x_mask) y_lengths (fun b => (enc b).g)
  ⟨dec.o_de, dec.frames, dec.attn⟩

/-- The learned parameter groups of the module, used to track which
parameters a tensor depends on through the autograd graph. -/
inductive Param where
  | emb : Param
  | enc : Param
  | dur : Param
  | dec : Param
  | embG : Param
  | projG : Param
  | posEnc : Param
  deriving DecidableEq

/-- A tensor in the autograd model: its value together with the set of
parameter groups reachable backwards from it.  An operation involving a
learned sub-network inserts that group; torch. Tensor.detach keeps the
value and empties the set. -/
structure GT (α : Type) where
  val : α
  srcs : Finset Param

/-- torch. Tensor.detach: same value, no gradient sources. -/
def GT.detach {α : Type} (t : GT α) : GT α := ⟨t.val, ∅⟩

/-- Application of a learned sub-network: the parameter group joins the
gradient sources of the input. -/
def GT.app1 {α β : Type} (p : Param) (f : α → β) (t : GT α) : GT β :=
  ⟨f t.val, insert p t.srcs⟩

/-- A parameter-free operation on one tensor. -/
def GT.map {α β : Type} (f : α → β) (t : GT α) : GT β := ⟨f t.val, t.srcs⟩

/-- A parameter-free operation combining two tensors. -/
def GT.map2 {α β γ : Type} (f : α → β → γ) (t : GT α) (u : GT β) : GT γ :=
  ⟨f t.val u.val, t.srcs ∪ u.srcs⟩

/-- The tensors of one forward or inference pass, with gradient-source
tracking. -/
structure GradOut where
  o_en : GT Mat
  o_en_dp : GT Mat
  dur_in : GT Mat
  o_dr_log : GT Vec
  o_de : GT Mat

/-- The speaker vector with its gradient sources: a table lookup carries
the speaker embedding parameters, an external vector carries none
(mirrors resolve_g). -/
noncomputable def resolve_g_grad (cfg : Config) (nets : Nets) (g : GInput) :
    Option (GT Vec) :=
  if has_emb_g cfg then
    match g with
    | GInput.sid i => some ⟨l2normalize cfg.c_in_channels (nets.emb_g i), {Param.embG}⟩
    | _ => Option.none
  else
    match g with
    | GInput.vec v => some ⟨v, ∅⟩
    | _ => Option.none

/-- The encoder pass in the autograd model (source lines 82-106). -/
noncomputable def _forward_encoder_grad (cfg : Config) (nets : Nets) (x : ℕ → ℕ)
    (x_len : ℕ) (g : GInput) : GT Mat × GT Mat × Option (GT Vec) :=
  let gv := resolve_g_grad cfg nets g
  let x_emb : GT Mat := ⟨fun c t => nets.emb (x t) c, {Param.emb}⟩
  let x_mask := sequence_mask x_len
  let o_en := GT.app1 Param.enc (fun m => nets.encoder m x_mask) x_emb
  let o_en_dp := match gv with
    | some g0 => GT.map2 (_concat_speaker_embedding cfg.hidden_channels) o_en g0
    | Option.none => o_en
  (o_en, o_en_dp, gv)

/-- The decoder-side pass in the autograd model: expansion (parameter
free), optional positional encoding, optional speaker conditioning, and
the decoder stack, whose output also depends on the speaker vector. -/
noncomputable def item_o_de_grad (cfg : Config) (nets : Nets) (t_x : ℕ) (o_en : GT Mat)
    (dr : GT (ℕ → ℕ)) (x_mask y_mask : Vec) (g : Option (GT Vec)) : GT Mat :=
  let o_en_ex := GT.map2 (fun m d => (expand_encoder_outputs t_x m d x_mask y_mask).1) o_en dr
  let o_en_ex2 := if cfg.positional_encoding then
      GT.app1 Param.posEnc (fun m => nets.pos_encoder m y_mask) o_en_ex
    else o_en_ex
  let gv2 := match g with
    | some g0 => some (if has_proj_g cfg then GT.app1 Param.projG nets.proj_g g0 else g0)
    | Option.none => Option.none
  let din := match gv2 with
    | some g0 => GT.map2 (fun (m : Mat) (gg : Vec) => fun c t => m c t + gg c) o_en_ex2 g0
    | Option.none => o_en_ex2
  let gval : Option Vec := match g with
    | some g0 => some g0.val
    | Option.none => Option.none
  let gsrcs : Finset Param := match g with
    | some g0 => g0.srcs
    | Option.none => ∅
  ⟨fun c t => nets.decoder_core din.val y_mask gval c t * y_mask t,
    insert Param.dec (din.srcs ∪ gsrcs)⟩

/-- SpeedySpeech.forward in the autograd model (source lines 123-127):
the duration predictor consumes the detached, speaker-conditioned encoder
output; the decoder consumes the un-detached encoder output and the
ground-truth durations. -/
noncomputable def forward_grad (cfg : Config) (nets : Nets) (t_x : ℕ) (x : ℕ → ℕ)
    (x_len y_len : ℕ) (dr : ℕ → ℕ) (g : GInput) : GradOut :=
  let enc := _forward_encoder_grad cfg nets x x_len g
  let x_mask := sequence_mask x_len
  let y_mask := sequence_mask y_len
  let dur_in := GT.detach enc.2.1
  let o_dr_log := GT.app1 Param.dur (fun m => nets.duration_predictor m x_mask) dur_in
  let o_de := item_o_de_grad cfg nets t_x enc.1 ⟨dr, ∅⟩ x_mask y_mask enc.2.2
  ⟨enc.1, enc.2.1, dur_in, o_dr_log, o_de⟩

/-- SpeedySpeech.inference in the autograd model (source lines 129-138):
as forward, but on the padded input and with the durations derived from
the predicted log-durations. -/
noncomputable def inference_grad (cfg : Config) (nets : Nets) (t_x : ℕ) (x : ℕ → ℕ)
    (x_len : ℕ) (g : GInput) : GradOut :=
  let x2 := pad_inference_input t_x x
  let enc := _forward_encoder_grad cfg nets x2 x_len g
  let x_mask := sequence_mask x_len
  let dur_in := GT.detach enc.2.1
  let o_dr_log := GT.app1 Param.dur (fun m => nets.duration_predictor m x_mask) dur_in
  let o_dr := GT.map (fun v t => format_durations_nat cfg.length_scale (v t) (x_mask t)) o_dr_log
  let y_len := ∑ t in Finset.range (t_x + 5), o_dr.val t
  let y_mask := sequence_mask y_len
  let o_de := item_o_de_grad cfg nets (t_x + 5) enc.1 o_dr x_mask y_mask enc.2.2
  ⟨enc.1, enc.2.1, dur_in, o_dr_log, o_de⟩

/-- A minimal concrete configuration (single speaker disabled, positional
encoding off, unit length scale) used to evaluate the entry points on
concrete inputs. -/
def cfgA : Config := ⟨10, 1, 1, false, 1, 0, false, 0⟩

/-- A concrete configuration with three speakers and an internal
embedding table. -/
def cfgSpk : Config := ⟨10, 1, 2, false, 1, 3, false, 4⟩

/-- A concrete configuration with positional encoding enabled. -/
def cfgPos : Config := ⟨10, 1, 1, true, 1, 0, false, 0⟩

/-- Concrete sub-networks whose duration predictor outputs the constant
log-duration 0, used to evaluate the entry points on concrete inputs. -/
noncomputable def netsA : Nets :=
  ⟨fun _ => fun _ => 0, fun m _ => m, fun _ _ => fun _ => 0, fun m _ => m,
    fun m _ _ => m, fun _ => fun _ => 0, fun v => v⟩

/-- A concrete encoder output used to instantiate the alignment claim. -/
def enW : Mat := fun c i => (c : ℝ) + (i : ℝ)

/-- A concrete valid duration assignment: durations 2, 1 for the two
valid tokens, 0 for padding. -/
def drW : ℕ → ℕ := fun i => if i = 0 then 2 else if i = 1 then 1 else 0

/-- The concrete alignment produced by expand_encoder_outputs on the
witness data. -/
noncomputable def attnW : ℕ → ℕ → ℝ :=
  (expand_encoder_outputs 3 enW drW (sequence_mask 2) (sequence_mask 3)).2

theorem torchRound_intCast (n : ℤ) : torchRound (n : ℝ) = n := by
  unfold torchRound
  rw [Int.fract_intCast, if_neg (by norm_num), round_intCast]

theorem torchRound_one : torchRound (1 : ℝ) = 1 := by
  simpa using torchRound_intCast 1

theorem one_le_torchRound {x : ℝ} (h : 1 ≤ x) : 1 ≤ torchRound x := by
  have hfl : (1 : ℤ) ≤ ⌊x⌋ := Int.le_floor.mpr (by exact_mod_cast h)
  unfold torchRound
  split_ifs with h1 h2
  · exact hfl
  · omega
  · rw [round_eq]
    refine Int.le_floor.mpr ?_
    push_cast
    linarith

theorem abs_torchRound_sub (x : ℝ) : |(torchRound x : ℝ) - x| ≤ 1 / 2 := by
  have hfr : Int.fract x = x - ⌊x⌋ := rfl
  unfold torchRound
  split_ifs with h1 h2
  · rw [hfr] at h1
    rw [abs_le]
    constructor <;> linarith
  · rw [hfr] at h1
    rw [abs_le]
    push_cast
    constructor <;> linarith
  · rw [abs_sub_comm]
    exact abs_sub_round x

theorem clamp_ite_eq_max (x : ℝ) : (if x < 1 then (1 : ℝ) else x) = max x 1 := by
  by_cases h : x < 1
  · rw [if_pos h, max_eq_right (le_of_lt h)]
  · rw [if_neg h, max_eq_left (not_lt.mp h)]

theorem one_le_clamp (x : ℝ) : 1 ≤ (if x < 1 then (1 : ℝ) else x) := by
  split_ifs with h
  · exact le_refl 1
  · exact not_lt.mp h

theorem one_le_format_durations_nat (length_scale o_dr_log x_mask : ℝ) :
    1 ≤ format_durations_nat length_scale o_dr_log x_mask := by
  unfold format_durations_nat
  have h := one_le_torchRound (one_le_clamp ((Real.exp o_dr_log - 1) * x_mask * length_scale))
  omega

theorem intCast_eq_toNat_cast {z : ℤ} (h : 0 ≤ z) : (z : ℝ) = ((z.toNat : ℕ) : ℝ) := by
  exact_mod_cast (Int.toNat_of_nonneg h).symm

theorem format_durations_elem_eq_nat (length_scale o_dr_log x_mask : ℝ) :
    format_durations_elem length_scale o_dr_log x_mask
      = ((format_durations_nat length_scale o_dr_log x_mask : ℕ) : ℝ) := by
  unfold format_durations_elem format_durations_nat
  have h := one_le_torchRound (one_le_clamp ((Real.exp o_dr_log - 1) * x_mask * length_scale))
  exact intCast_eq_toNat_cast (by omega)

theorem format_durations_nat_mask_zero (length_scale o_dr_log : ℝ) :
    format_durations_nat length_scale o_dr_log 0 = 1 := by
  unfold format_durations_nat
  rw [mul_zero, zero_mul, if_pos (by norm_num), torchRound_one]
  rfl

theorem format_durations_nat_log_zero (x_mask : ℝ) :
    format_durations_nat 1 0 x_mask = 1 := by
  unfold format_durations_nat
  rw [Real.exp_zero, sub_self, zero_mul, zero_mul, if_pos (by norm_num), torchRound_one]
  rfl

theorem sequence_mask_of_lt {len t : ℕ} (h : t < len) : sequence_mask len t = 1 :=
  if_pos h

theorem sequence_mask_of_le {len t : ℕ} (h : len ≤ t) : sequence_mask len t = 0 :=
  if_neg (not_lt.mpr h)

theorem cum_dur_zero (dr : ℕ → ℕ) : cum_dur dr 0 = 0 := rfl

theorem cum_dur_succ (dr : ℕ → ℕ) (i : ℕ) :
    cum_dur dr (i + 1) = cum_dur dr i + dr i :=
  Finset.sum_range_succ dr i

theorem cum_dur_mono (dr : ℕ → ℕ) {i j : ℕ} (h : i ≤ j) :
    cum_dur dr i ≤ cum_dur dr j :=
  Finset.sum_le_sum_of_subset (Finset.range_subset.mpr h)

theorem cum_dur_eq_of_tail_zero (dr : ℕ → ℕ) {m n : ℕ}
    (h0 : ∀ k, m ≤ k → dr k = 0) (h : m ≤ n) :
    cum_dur dr n = cum_dur dr m := by
  induction n with
  | zero =>
    have : m = 0 := Nat.le_zero.mp h
    rw [this]
  | succ n ih =>
    rcases Nat.lt_or_ge m (n + 1) with hlt | hge
    · have hmn : m ≤ n := Nat.lt_succ_iff.mp hlt
      rw [cum_dur_succ, h0 n hmn, ih hmn, add_zero]
    · have : m = n + 1 := le_antisymm h hge
      rw [this]

theorem sum_range_ite_lt (n m : ℕ) (h : m ≤ n) (f : ℕ → ℝ) :
    (∑ i in Finset.range n, if i < m then f i else 0)
      = ∑ i in Finset.range m, f i := by
  rw [← Finset.sum_filter]
  congr 1
  ext i
  simp only [Finset.mem_filter, Finset.mem_range]
  omega

theorem sum_path_indicator (dr : ℕ → ℕ) (j : ℕ) (n : ℕ) :
    (∑ i in Finset.range n,
        if cum_dur dr i ≤ j ∧ j < cum_dur dr (i + 1) then (1 : ℝ) else 0)
      = if j < cum_dur dr n then 1 else 0 := by
  induction n with
  | zero => simp [cum_dur_zero]
  | succ n ih =>
    rw [Finset.sum_range_succ, ih]
    rcases Nat.lt_or_ge j (cum_dur dr n) with h | h
    · have h2 : j < cum_dur dr (n + 1) :=
        lt_of_lt_of_le h (cum_dur_mono dr (Nat.le_succ n))
      rw [if_pos h, if_pos h2, if_neg (by omega)]
      norm_num
    · rcases Nat.lt_or_ge j (cum_dur dr (n + 1)) with h3 | h3
      · rw [if_neg (by omega), if_pos (by omega), if_pos h3]
        norm_num
      · rw [if_neg (by omega), if_neg (by omega), if_neg (by omega)]
        norm_num

theorem sum_interval_indicator (a b n : ℕ) (h : b ≤ n) :
    (∑ j in Finset.range n, if a ≤ j ∧ j < b then (1 : ℝ) else 0)
      = ((b - a : ℕ) : ℝ) := by
  have hpt : ∀ j, (if a ≤ j ∧ j < b then (1 : ℝ) else 0)
      = if j ∈ Finset.Ico a b then 1 else 0 := by
    intro j
    simp [Finset.mem_Ico]
  rw [Finset.sum_congr rfl fun j _ => hpt j, Finset.sum_ite_mem]
  have hsub : Finset.Ico a b ⊆ Finset.range n := by
    intro j hj
    rw [Finset.mem_range]
    exact lt_of_lt_of_le (Finset.mem_Ico.mp hj).2 h
  rw [Finset.inter_eq_right.mpr hsub, Finset.sum_const, Nat.card_Ico]
  norm_num

theorem generate_path_apply (dr : ℕ → ℕ) (x_len y_len : ℕ) (i j : ℕ) :
    generate_path dr (fun i2 j2 => sequence_mask x_len i2 * sequence_mask y_len j2) i j
      = (if cum_dur dr i ≤ j ∧ j < cum_dur dr (i + 1) then (1 : ℝ) else 0)
          * (sequence_mask x_len i * sequence_mask y_len j) := rfl

theorem generate_path_binary (dr : ℕ → ℕ) (x_len y_len : ℕ) (i j : ℕ) :
    generate_path dr (fun i2 j2 => sequence_mask x_len i2 * sequence_mask y_len j2) i j = 0 ∨
    generate_path dr (fun i2 j2 => sequence_mask x_len i2 * sequence_mask y_len j2) i j = 1 := by
  rw [generate_path_apply]
  unfold sequence_mask
  split_ifs <;> norm_num

theorem generate_path_eq_one_iff (dr : ℕ → ℕ) (mask : ℕ → ℕ → ℝ) (i j : ℕ)
    (h : generate_path dr mask i j = 1) :
    cum_dur dr i ≤ j ∧ j < cum_dur dr (i + 1) := by
  unfold generate_path at h
  by_cases hc : cum_dur dr i ≤ j ∧ j < cum_dur dr (i + 1)
  · exact hc
  · rw [if_neg hc, zero_mul] at h
    exact absurd h.symm one_ne_zero

theorem generate_path_monotonic (dr : ℕ → ℕ) (mask : ℕ → ℕ → ℝ)
    {i j i2 j2 : ℕ} (h1 : generate_path dr mask i j = 1)
    (h2 : generate_path dr mask i2 j2 = 1) (hj : j ≤ j2) : i ≤ i2 := by
  have hc1 := generate_path_eq_one_iff dr mask i j h1
  have hc2 := generate_path_eq_one_iff dr mask i2 j2 h2
  by_contra hi
  have hi2 : i2 + 1 ≤ i := by omega
  have := cum_dur_mono dr hi2
  omega

theorem generate_path_valid (dr : ℕ → ℕ) (x_len y_len : ℕ)
    (hdr0 : ∀ i, x_len ≤ i → dr i = 0)
    (hsum : cum_dur dr x_len = y_len) (i j : ℕ) :
    generate_path dr (fun i2 j2 => sequence_mask x_len i2 * sequence_mask y_len j2) i j
      = if cum_dur dr i ≤ j ∧ j < cum_dur dr (i + 1) then 1 else 0 := by
  rw [generate_path_apply]
  by_cases hc : cum_dur dr i ≤ j ∧ j < cum_dur dr (i + 1)
  · have hix : i < x_len := by
      by_contra hge
      have hge2 : x_len ≤ i := not_lt.mp hge
      have : cum_dur dr (i + 1) = cum_dur dr i := by
        rw [cum_dur_succ, hdr0 i hge2, add_zero]
      omega
    have hjy : j < y_len := by
      have hle : cum_dur dr (i + 1) ≤ cum_dur dr x_len := cum_dur_mono dr hix
      omega
    rw [if_pos hc, sequence_mask_of_lt hix, sequence_mask_of_lt hjy]
    norm_num
  · rw [if_neg hc, zero_mul]

theorem generate_path_sum_tokens (dr : ℕ → ℕ) (x_len y_len t_x : ℕ)
    (hx : x_len ≤ t_x) (j : ℕ) :
    (∑ i in Finset.range t_x,
        generate_path dr (fun i2 j2 => sequence_mask x_len i2 * sequence_mask y_len j2) i j)
      = (if j < cum_dur dr x_len then 1 else 0) * sequence_mask y_len j := by
  rw [Finset.sum_congr rfl fun i _ => generate_path_apply dr x_len y_len i j]
  have hpt : ∀ i,
      ((if cum_dur dr i ≤ j ∧ j < cum_dur dr (i + 1) then (1 : ℝ) else 0)
          * (sequence_mask x_len i * sequence_mask y_len j))
        = (if i < x_len then
            (if cum_dur dr i ≤ j ∧ j < cum_dur dr (i + 1) then (1 : ℝ) else 0)
              * sequence_mask y_len j
          else 0) := by
    intro i
    by_cases hi : i < x_len
    · rw [if_pos hi, sequence_mask_of_lt hi]
      ring
    · rw [if_neg hi, sequence_mask_of_le (not_lt.mp hi)]
      ring
  rw [Finset.sum_congr rfl fun i _ => hpt i,
    sum_range_ite_lt t_x x_len hx, ← Finset.sum_mul, sum_path_indicator]

theorem generate_path_sum_frames (dr : ℕ → ℕ) (x_len y_len t_y : ℕ)
    {i : ℕ} (hi : i < x_len) (hcy : cum_dur dr (i + 1) ≤ y_len)
    (hyt : y_len ≤ t_y) :
    (∑ j in Finset.range t_y,
        generate_path dr (fun i2 j2 => sequence_mask x_len i2 * sequence_mask y_len j2) i j)
      = ((dr i : ℕ) : ℝ) := by
  rw [Finset.sum_congr rfl fun j _ => generate_path_apply dr x_len y_len i j]
  have hpt : ∀ j,
      ((if cum_dur dr i ≤ j ∧ j < cum_dur dr (i + 1) then (1 : ℝ) else 0)
          * (sequence_mask x_len i * sequence_mask y_len j))
        = (if cum_dur dr i ≤ j ∧ j < cum_dur dr (i + 1) then (1 : ℝ) else 0) := by
    intro j
    by_cases hc : cum_dur dr i ≤ j ∧ j < cum_dur dr (i + 1)
    · have hjy : j < y_len := by omega
      rw [if_pos hc, sequence_mask_of_lt hi, sequence_mask_of_lt hjy]
      ring
    · rw [if_neg hc]
      ring
  rw [Finset.sum_congr rfl fun j _ => hpt j,
    sum_interval_indicator (cum_dur dr i) (cum_dur dr (i + 1)) t_y (le_trans hcy hyt)]
  rw [cum_dur_succ]
  norm_num

theorem generate_path_sum_frames_pad (dr : ℕ → ℕ) (x_len y_len t_y : ℕ)
    {i : ℕ} (hi : x_len ≤ i) :
    (∑ j in Finset.range t_y,
        generate_path dr (fun i2 j2 => sequence_mask x_len i2 * sequence_mask y_len j2) i j)
      = 0 := by
  refine Finset.sum_eq_zero fun j _ => ?_
  rw [generate_path_apply, sequence_mask_of_le hi]
  ring

/-- C1: for a batch item with valid durations and masks (padding tokens
carry duration 0, the valid durations sum to the declared output length,
and the declared lengths fit inside the tensor sizes), the alignment
built by expand_encoder_outputs is binary; it is monotonic; token i
covers exactly the contiguous interval of output frames given by the
cumulative durations, so it is repeated exactly duration i times
contiguously; its row sums over the output-frame axis equal the
durations; each valid output frame is covered by exactly one token; and
the expanded representation is the matrix product of the path with the
transposed encoder output. -/
theorem C1_alignment_properties (t_x t_y x_len y_len : ℕ) (en : Mat) (dr : ℕ → ℕ)
    (attn : ℕ → ℕ → ℝ)
    (hattn : attn = (expand_encoder_outputs t_x en dr (sequence_mask x_len)
      (sequence_mask y_len)).2)
    (hx : x_len ≤ t_x) (hy : y_len ≤ t_y)
    (hdr0 : ∀ i, x_len ≤ i → dr i = 0)
    (hsum : cum_dur dr x_len = y_len) :
    (∀ i j, attn i j = 0 ∨ attn i j = 1) ∧
    (∀ i j i2 j2, attn i j = 1 → attn i2 j2 = 1 → j ≤ j2 → i ≤ i2) ∧
    (∀ i, i < x_len → ∀ j,
      (attn i j = 1 ↔ (cum_dur dr i ≤ j ∧ j < cum_dur dr (i + 1)))) ∧
    (∀ i, (∑ j in Finset.range t_y, attn i j) = ((dr i : ℕ) : ℝ)) ∧
    (∀ j, j < y_len → (∑ i in Finset.range t_x, attn i j) = 1) ∧
    (∀ c j, (expand_encoder_outputs t_x en dr (sequence_mask x_len)
        (sequence_mask y_len)).1 c j = ∑ i in Finset.range t_x, attn i j * en c i) := by
  subst hattn
  have hEq : (expand_encoder_outputs t_x en dr (sequence_mask x_len) (sequence_mask y_len)).2
      = generate_path dr (fun i2 j2 => sequence_mask x_len i2 * sequence_mask y_len j2) := rfl
  rw [hEq]
  refine ⟨fun i j => generate_path_binary dr x_len y_len i j,
    fun i j i2 j2 h1 h2 hj => generate_path_monotonic dr _ h1 h2 hj, ?_, ?_, ?_,
    fun c j => rfl⟩
  · intro i hi j
    rw [generate_path_valid dr x_len y_len hdr0 hsum i j]
    by_cases hc : cum_dur dr i ≤ j ∧ j < cum_dur dr (i + 1)
    · simp [hc]
    · simp [hc]
  · intro i
    rcases Nat.lt_or_ge i x_len with hi | hi
    · have hcy : cum_dur dr (i + 1) ≤ y_len := by
        have := cum_dur_mono dr (show i + 1 ≤ x_len by omega)
        omega
      exact generate_path_sum_frames dr x_len y_len t_y hi hcy hy
    · rw [generate_path_sum_frames_pad dr x_len y_len t_y hi, hdr0 i hi]
      norm_num
  · intro j hj
    rw [generate_path_sum_tokens dr x_len y_len t_x hx j, hsum, if_pos hj,
      sequence_mask_of_lt hj, one_mul]

theorem C1_witness :
    (2 ≤ 3 ∧ 3 ≤ 4 ∧ (∀ i, 2 ≤ i → drW i = 0) ∧ cum_dur drW 2 = 3) ∧
    ((∀ i j, attnW i j = 0 ∨ attnW i j = 1) ∧
     (∀ i j i2 j2, attnW i j = 1 → attnW i2 j2 = 1 → j ≤ j2 → i ≤ i2) ∧
     (∀ i, i < 2 → ∀ j, (attnW i j = 1 ↔ (cum_dur drW i ≤ j ∧ j < cum_dur drW (i + 1)))) ∧
     (∀ i, (∑ j in Finset.range 4, attnW i j) = ((drW i : ℕ) : ℝ)) ∧
     (∀ j, j < 3 → (∑ i in Finset.range 3, attnW i j) = 1) ∧
     (∀ c j, (expand_encoder_outputs 3 enW drW (sequence_mask 2) (sequence_mask 3)).1 c j
        = ∑ i in Finset.range 3, attnW i j * enW c i)) := by
  have hdr0 : ∀ i, 2 ≤ i → drW i = 0 := by
    intro i hi
    unfold drW
    rw [if_neg (by omega), if_neg (by omega)]
  have hsum : cum_dur drW 2 = 3 := by decide
  exact ⟨⟨by norm_num, by norm_num, hdr0, hsum⟩,
    C1_alignment_properties 3 4 2 3 enW drW attnW rfl (by norm_num) (by norm_num) hdr0 hsum⟩

/-- C2: format_durations computes round(clamp_min((exp(o_dr_log) - 1) *
x_mask * length_scale, 1)): elementwise it equals the specification
formula (exponentiate, subtract one, multiply by the mask and the length
scale, clamp from below at 1, round), and the rounding lands within one
half of the clamped value, so it rounds to a nearest integer. -/
theorem C2_format_durations_closed_form (length_scale : ℝ) (o_dr_log x_mask : Vec) (t : ℕ) :
    format_durations length_scale o_dr_log x_mask t
      = format_durations_spec_elem length_scale (o_dr_log t) (x_mask t) ∧
    |format_durations length_scale o_dr_log x_mask t
      - max ((Real.exp (o_dr_log t) - 1) * x_mask t * length_scale) 1| ≤ 1 / 2 := by
  constructor
  · unfold format_durations format_durations_elem format_durations_spec_elem
    rw [clamp_ite_eq_max]
  · unfold format_durations format_durations_elem
    rw [clamp_ite_eq_max]
    exact abs_torchRound_sub _

/-- C3: at a valid (non-padding) token position, where the mask is 1, the
post-processed duration is at least 1, for every predicted log-duration
(in particular arbitrarily negative ones) and every length scale, both as
the real value the code returns and as its natural-number reading. -/
theorem C3_min_one_duration (length_scale o_dr_log x_mask : ℝ) (_hm : x_mask = 1) :
    1 ≤ format_durations_elem length_scale o_dr_log x_mask ∧
    1 ≤ format_durations_nat length_scale o_dr_log x_mask := by
  constructor
  · rw [format_durations_elem_eq_nat]
    exact_mod_cast one_le_format_durations_nat length_scale o_dr_log x_mask
  · exact one_le_format_durations_nat length_scale o_dr_log x_mask

theorem C3_witness :
    (1 : ℝ) = 1 ∧
    (1 ≤ format_durations_elem 1 (-100) 1 ∧ 1 ≤ format_durations_nat 1 (-100) 1) :=
  ⟨rfl, C3_min_one_duration 1 (-100) 1 rfl⟩

/-- C9: in inference every padding position, including the five trailing
positions appended to the input and not counted in the declared length,
receives post-processed duration exactly 1 (the mask zeroes the value and
the clamp raises it to 1), so the inferred output length is the sum of
the valid-token durations plus the number of padding positions, which is
at least the 5 appended ones. -/
theorem C9_padding_duration_one (cfg : Config) (nets : Nets) (t_x : ℕ) (x : ℕ → ℕ)
    (x_len : ℕ) (g : GInput) (hlen : x_len ≤ t_x) :
    (∀ t, x_len ≤ t → inference_durations cfg nets t_x x x_len g t = 1) ∧
    inference_y_length cfg nets t_x x x_len g
      = (∑ t in Finset.range x_len, inference_durations cfg nets t_x x x_len g t)
          + (t_x + 5 - x_len) ∧
    5 ≤ t_x + 5 - x_len := by
  have hpad : ∀ t, x_len ≤ t → inference_durations cfg nets t_x x x_len g t = 1 := by
    intro t ht
    have hred : inference_durations cfg nets t_x x x_len g t
        = format_durations_nat cfg.length_scale
            (nets.duration_predictor
              (_forward_encoder cfg nets (pad_inference_input t_x x) x_len g).o_en_dp
              (sequence_mask x_len) t)
            (sequence_mask x_len t) := rfl
    rw [hred, sequence_mask_of_le ht, format_durations_nat_mask_zero]
  refine ⟨hpad, ?_, by omega⟩
  have h1 : inference_y_length cfg nets t_x x x_len g
      = ∑ t in Finset.range (t_x + 5), inference_durations cfg nets t_x x x_len g t := rfl
  rw [h1, Finset.range_eq_Ico,
    ← Finset.sum_Ico_consecutive _ (Nat.zero_le x_len) (show x_len ≤ t_x + 5 by omega)]
  congr 1
  rw [Finset.sum_congr rfl fun t ht => hpad t (Finset.mem_Ico.mp ht).1,
    Finset.sum_const, Nat.card_Ico, smul_eq_mul, mul_one]

theorem C9_witness :
    1 ≤ 1 ∧
    ((∀ t, 1 ≤ t → inference_durations cfgA netsA 1 (fun _ => 0) 1 GInput.none t = 1) ∧
     inference_y_length cfgA netsA 1 (fun _ => 0) 1 GInput.none
       = (∑ t in Finset.range 1, inference_durations cfgA netsA 1 (fun _ => 0) 1 GInput.none t)
           + (1 + 5 - 1) ∧
     5 ≤ 1 + 5 - 1) :=
  ⟨le_refl 1, C9_padding_duration_one cfgA netsA 1 (fun _ => 0) 1 GInput.none (le_refl 1)⟩

theorem inference_durations_cfgA (t : ℕ) :
    inference_durations cfgA netsA 1 (fun _ => 0) 1 GInput.none t = 1 := by
  have hred : inference_durations cfgA netsA 1 (fun _ => 0) 1 GInput.none t
      = format_durations_nat 1 0 (sequence_mask 1 t) := rfl
  rw [hred, format_durations_nat_log_zero]

theorem inference_y_length_cfgA :
    inference_y_length cfgA netsA 1 (fun _ => 0) 1 GInput.none = 6 := by
  have h1 : inference_y_length cfgA netsA 1 (fun _ => 0) 1 GInput.none
      = ∑ t in Finset.range 6, inference_durations cfgA netsA 1 (fun _ => 0) 1 GInput.none t := rfl
  rw [h1, Finset.sum_congr rfl fun t _ => inference_durations_cfgA t]
  simp

/-- C4: the training forward feature tensor has frame-axis length equal
to the maximum of the supplied output lengths over the batch; the
inference feature tensor has frame-axis length equal to the maximum over
the batch of each item's inferred output length, which is the sum across
its tokens of the post-processed durations; and frames past an item's own
output length are zero-padded in both entry points. -/
theorem C4_output_frame_lengths (cfg : Config) (nets : Nets) (B t_x : ℕ)
    (x : ℕ → ℕ → ℕ) (x_lengths y_lengths : ℕ → ℕ) (dr : ℕ → ℕ → ℕ) (g : ℕ → GInput) :
    (forward cfg nets B t_x x x_lengths y_lengths dr g).frames
        = Finset.sup (Finset.range B) y_lengths ∧
    (inference cfg nets B t_x x x_lengths g).frames
        = Finset.sup (Finset.range B)
            (fun b => inference_y_length cfg nets t_x (x b) (x_lengths b) (g b)) ∧
    (∀ b, inference_y_length cfg nets t_x (x b) (x_lengths b) (g b)
        = ∑ t in Finset.range (t_x + 5),
            inference_durations cfg nets t_x (x b) (x_lengths b) (g b) t) ∧
    (∀ b c t, y_lengths b ≤ t →
      (forward cfg nets B t_x x x_lengths y_lengths dr g).o_de b c t = 0) ∧
    (∀ b c t, inference_y_length cfg nets t_x (x b) (x_lengths b) (g b) ≤ t →
      (inference cfg nets B t_x x x_lengths g).o_de b c t = 0) := by
  refine ⟨rfl, rfl, fun b => rfl, ?_, ?_⟩
  · intro b c t ht
    have hred : (forward cfg nets B t_x x x_lengths y_lengths dr g).o_de b c t
        = nets.decoder_core
            (decoder_input cfg nets t_x
              (_forward_encoder cfg nets (x b) (x_lengths b) (g b)).o_en (dr b)
              (_forward_encoder cfg nets (x b) (x_lengths b) (g b)).x_mask
              (sequence_mask (y_lengths b))
              (_forward_encoder cfg nets (x b) (x_lengths b) (g b)).g)
            (sequence_mask (y_lengths b))
            (_forward_encoder cfg nets (x b) (x_lengths b) (g b)).g c t
          * sequence_mask (y_lengths b) t := rfl
    rw [hred, sequence_mask_of_le ht, mul_zero]
  · intro b c t ht
    have hred : (inference cfg nets B t_x x x_lengths g).o_de b c t
        = nets.decoder_core
            (decoder_input cfg nets (t_x + 5)
              (_forward_encoder cfg nets (pad_inference_input t_x (x b)) (x_lengths b) (g b)).o_en
              (inference_durations cfg nets t_x (x b) (x_lengths b) (g b))
              (_forward_encoder cfg nets (pad_inference_input t_x (x b)) (x_lengths b) (g b)).x_mask
              (sequence_mask (inference_y_length cfg nets t_x (x b) (x_lengths b) (g b)))
              (_forward_encoder cfg nets (pad_inference_input t_x (x b)) (x_lengths b) (g b)).g)
            (sequence_mask (inference_y_length cfg nets t_x (x b) (x_lengths b) (g b)))
            (_forward_encoder cfg nets (pad_inference_input t_x (x b)) (x_lengths b) (g b)).g c t
          * sequence_mask (inference_y_length cfg nets t_x (x b) (x_lengths b) (g b)) t := rfl
    rw [hred, sequence_mask_of_le ht, mul_zero]

theorem C4_witness :
    (forward cfgA netsA 1 1 (fun _ _ => 0) (fun _ => 1) (fun _ => 4) (fun _ _ => 2)
        (fun _ => GInput.none)).frames
      = Finset.sup (Finset.range 1) (fun _ => 4) ∧
    4 ≤ 5 ∧
    (forward cfgA netsA 1 1 (fun _ _ => 0) (fun _ => 1) (fun _ => 4) (fun _ _ => 2)
        (fun _ => GInput.none)).o_de 0 0 5 = 0 ∧
    inference_y_length cfgA netsA 1 (fun _ => 0) 1 GInput.none ≤ 10 ∧
    (inference cfgA netsA 1 1 (fun _ _ => 0) (fun _ => 1)
        (fun _ => GInput.none)).o_de 0 0 10 = 0 := by
  refine ⟨(C4_output_frame_lengths cfgA netsA 1 1 (fun _ _ => 0) (fun _ => 1) (fun _ => 4)
      (fun _ _ => 2) (fun _ => GInput.none)).1, by norm_num,
    (C4_output_frame_lengths cfgA netsA 1 1 (fun _ _ => 0) (fun _ => 1) (fun _ => 4)
      (fun _ _ => 2) (fun _ => GInput.none)).2.2.2.1 0 0 5 (by norm_num),
    ?_, ?_⟩
  · rw [inference_y_length_cfgA]
    norm_num
  · exact (C4_output_frame_lengths cfgA netsA 1 1 (fun _ _ => 0) (fun _ => 1) (fun _ => 4)
      (fun _ _ => 2) (fun _ => GInput.none)).2.2.2.2 0 0 10
      (by rw [inference_y_length_cfgA]; norm_num)

/-- C5: the inference entry point pads the token sequence with exactly
five trailing positions holding the padding id 0 before any processing,
and its result consists of exactly the decoder features and the alignment
computed over the padded input (no log-duration component), whereas the
training forward additionally returns the predicted log-durations. -/
theorem C5_entry_point_shapes (cfg : Config) (nets : Nets) (B t_x : ℕ)
    (x : ℕ → ℕ → ℕ) (x_lengths y_lengths : ℕ → ℕ) (dr : ℕ → ℕ → ℕ) (g : ℕ → GInput) :
    (∀ b t, t < t_x → pad_inference_input t_x (x b) t = x b t) ∧
    (∀ b t, t_x ≤ t → pad_inference_input t_x (x b) t = 0) ∧
    (inference cfg nets B t_x x x_lengths g
      = ⟨(_forward_decoder cfg nets B (t_x + 5)
            (fun b => (_forward_encoder cfg nets (pad_inference_input t_x (x b))
              (x_lengths b) (g b)).o_en)
            (fun b => inference_durations cfg nets t_x (x b) (x_lengths b) (g b))
            (fun b => (_forward_encoder cfg nets (pad_inference_input t_x (x b))
              (x_lengths b) (g b)).x_mask)
            (fun b => inference_y_length cfg nets t_x (x b) (x_lengths b) (g b))
            (fun b => (_forward_encoder cfg nets (pad_inference_input t_x (x b))
              (x_lengths b) (g b)).g)).o_de,
          (_forward_decoder cfg nets B (t_x + 5)
            (fun b => (_forward_encoder cfg nets (pad_inference_input t_x (x b))
              (x_lengths b) (g b)).o_en)
            (fun b => inference_durations cfg nets t_x (x b) (x_lengths b) (g b))
            (fun b => (_forward_encoder cfg nets (pad_inference_input t_x (x b))
              (x_lengths b) (g b)).x_mask)
            (fun b => inference_y_length cfg nets t_x (x b) (x_lengths b) (g b))
            (fun b => (_forward_encoder cfg nets (pad_inference_input t_x (x b))
              (x_lengths b) (g b)).g)).frames,
          (_forward_decoder cfg nets B (t_x + 5)
            (fun b => (_forward_encoder cfg nets (pad_inference_input t_x (x b))
              (x_lengths b) (g b)).o_en)
            (fun b => inference_durations cfg nets t_x (x b) (x_lengths b) (g b))
            (fun b => (_forward_encoder cfg nets (pad_inference_input t_x (x b))
              (x_lengths b) (g b)).x_mask)
            (fun b => inference_y_length cfg nets t_x (x b) (x_lengths b) (g b))
            (fun b => (_forward_encoder cfg nets (pad_inference_input t_x (x b))
              (x_lengths b) (g b)).g)).attn⟩) ∧
    ((forward cfg nets B t_x x x_lengths y_lengths dr g).o_dr_log
      = fun b => nets.duration_predictor
          (_forward_encoder cfg nets (x b) (x_lengths b) (g b)).o_en_dp
          (_forward_encoder cfg nets (x b) (x_lengths b) (g b)).x_mask) := by
  refine ⟨?_, ?_, rfl, rfl⟩
  · intro b t h
    unfold pad_inference_input
    rw [if_pos h]
  · intro b t h
    unfold pad_inference_input
    rw [if_neg (not_lt.mpr h)]

theorem C5_witness :
    (0 < 1 ∧ pad_inference_input 1 (fun _ => 7) 0 = 7) ∧
    (1 ≤ 3 ∧ pad_inference_input 1 (fun _ => 7) 3 = 0) :=
  ⟨⟨by norm_num,
    (C5_entry_point_shapes cfgA netsA 1 1 (fun _ _ => 7) (fun _ => 1) (fun _ => 1)
      (fun _ _ => 1) (fun _ => GInput.none)).1 0 0 (by norm_num)⟩,
   ⟨by norm_num,
    (C5_entry_point_shapes cfgA netsA 1 1 (fun _ _ => 7) (fun _ => 1) (fun _ => 1)
      (fun _ _ => 1) (fun _ => GInput.none)).2.1 0 3 (by norm_num)⟩⟩

/-- C7: with num_speakers = 0 there is no speaker embedding table; with
num_speakers > 1 and internal speakers a table exists and its looked-up
embedding is unit-normalized before use; an externally supplied speaker
vector is used as-is; the encoder block stack runs on the plain embedded
input regardless of the speaker input; and the speaker vector is
concatenated channel-wise to the encoder output only for the duration
predictor branch. -/
theorem C7_speaker_conditioning (cfg : Config) (nets : Nets) (i : ℕ) (v : Vec)
    (x : ℕ → ℕ) (x_len : ℕ) (g : GInput) (gv : Vec) :
    (cfg.num_speakers = 0 → has_emb_g cfg = false) ∧
    (1 < cfg.num_speakers → cfg.external_c = false → has_emb_g cfg = true) ∧
    (has_emb_g cfg = true →
      resolve_g cfg nets (GInput.sid i)
        = some (l2normalize cfg.c_in_channels (nets.emb_g i))) ∧
    (has_emb_g cfg = false → resolve_g cfg nets (GInput.vec v) = some v) ∧
    ((_forward_encoder cfg nets x x_len g).o_en
      = nets.encoder (fun c t => nets.emb (x t) c) (sequence_mask x_len)) ∧
    (resolve_g cfg nets g = some gv →
      (_forward_encoder cfg nets x x_len g).o_en_dp
        = _concat_speaker_embedding cfg.hidden_channels
            ((_forward_encoder cfg nets x x_len g).o_en) gv) := by
  refine ⟨?_, ?_, ?_, ?_, rfl, ?_⟩
  · intro h
    simp [has_emb_g, h]
  · intro h1 h2
    simp [has_emb_g, h1, h2]
  · intro h
    simp [resolve_g, h]
  · intro h
    simp [resolve_g, h]
  · intro h
    have hred : (_forward_encoder cfg nets x x_len g).o_en_dp
        = (match resolve_g cfg nets g with
          | some g0 => _concat_speaker_embedding cfg.hidden_channels
              ((_forward_encoder cfg nets x x_len g).o_en) g0
          | Option.none => (_forward_encoder cfg nets x x_len g).o_en) := rfl
    rw [hred, h]

theorem C7_witness :
    (has_emb_g cfgSpk = true ∧
     resolve_g cfgSpk netsA (GInput.sid 0)
       = some (l2normalize cfgSpk.c_in_channels (netsA.emb_g 0))) ∧
    (has_emb_g cfgA = false ∧
     resolve_g cfgA netsA (GInput.vec (fun _ => 2)) = some (fun _ => 2)) :=
  ⟨⟨(C7_speaker_conditioning cfgSpk netsA 0 (fun _ => 2) (fun _ => 0) 1 GInput.none
      (fun _ => 0)).2.1 (by decide) rfl,
    (C7_speaker_conditioning cfgSpk netsA 0 (fun _ => 2) (fun _ => 0) 1 GInput.none
      (fun _ => 0)).2.2.1 rfl⟩,
   ⟨(C7_speaker_conditioning cfgA netsA 0 (fun _ => 2) (fun _ => 0) 1 GInput.none
      (fun _ => 0)).1 rfl,
    (C7_speaker_conditioning cfgA netsA 0 (fun _ => 2) (fun _ => 0) 1 GInput.none
      (fun _ => 0)).2.2.2.1 rfl⟩⟩

theorem decoder_input_flag_true_none (cfg : Config) (nets : Nets) (t_x : ℕ)
    (o_en : Mat) (dr : ℕ → ℕ) (x_mask y_mask : Vec)
    (hf : cfg.positional_encoding = true) :
    decoder_input cfg nets t_x o_en dr x_mask y_mask Option.none
      = nets.pos_encoder ((expand_encoder_outputs t_x o_en dr x_mask y_mask).1) y_mask := by
  unfold decoder_input
  rw [hf]
  simp

theorem decoder_input_flag_true_some (cfg : Config) (nets : Nets) (t_x : ℕ)
    (o_en : Mat) (dr : ℕ → ℕ) (x_mask y_mask : Vec) (g0 : Vec)
    (hf : cfg.positional_encoding = true) :
    decoder_input cfg nets t_x o_en dr x_mask y_mask (some g0)
      = _sum_speaker_embedding cfg nets
          (nets.pos_encoder ((expand_encoder_outputs t_x o_en dr x_mask y_mask).1) y_mask)
          g0 := by
  unfold decoder_input
  rw [hf]
  simp

theorem decoder_input_flag_false_none (cfg : Config) (nets : Nets) (t_x : ℕ)
    (o_en : Mat) (dr : ℕ → ℕ) (x_mask y_mask : Vec)
    (hf : cfg.positional_encoding = false) :
    decoder_input cfg nets t_x o_en dr x_mask y_mask Option.none
      = (expand_encoder_outputs t_x o_en dr x_mask y_mask).1 := by
  unfold decoder_input
  rw [hf]
  simp

theorem decoder_input_flag_false_some (cfg : Config) (nets : Nets) (t_x : ℕ)
    (o_en : Mat) (dr : ℕ → ℕ) (x_mask y_mask : Vec) (g0 : Vec)
    (hf : cfg.positional_encoding = false) :
    decoder_input cfg nets t_x o_en dr x_mask y_mask (some g0)
      = _sum_speaker_embedding cfg nets
          ((expand_encoder_outputs t_x o_en dr x_mask y_mask).1) g0 := by
  unfold decoder_input
  rw [hf]
  simp

theorem decoder_input_pos_independent (cfg : Config) (nets : Nets)
    (pe pe2 : Mat → Vec → Mat) (t_x : ℕ) (o_en : Mat) (dr : ℕ → ℕ)
    (x_mask y_mask : Vec) (gOpt : Option Vec)
    (hf : cfg.positional_encoding = false) :
    decoder_input cfg { nets with pos_encoder := pe } t_x o_en dr x_mask y_mask gOpt
      = decoder_input cfg { nets with pos_encoder := pe2 } t_x o_en dr x_mask y_mask gOpt := by
  cases gOpt with
  | none =>
    rw [decoder_input_flag_false_none _ _ _ _ _ _ _ hf,
      decoder_input_flag_false_none _ _ _ _ _ _ _ hf]
  | some g0 =>
    rw [decoder_input_flag_false_some _ _ _ _ _ _ _ _ hf,
      decoder_input_flag_false_some _ _ _ _ _ _ _ _ hf]
    rfl

theorem item_o_de_pos_independent (cfg : Config) (nets : Nets)
    (pe pe2 : Mat → Vec → Mat) (t_x : ℕ) (o_en : Mat) (dr : ℕ → ℕ)
    (x_mask y_mask : Vec) (gOpt : Option Vec)
    (hf : cfg.positional_encoding = false) :
    item_o_de cfg { nets with pos_encoder := pe } t_x o_en dr x_mask y_mask gOpt
      = item_o_de cfg { nets with pos_encoder := pe2 } t_x o_en dr x_mask y_mask gOpt := by
  unfold item_o_de
  rw [decoder_input_pos_independent cfg nets pe pe2 t_x o_en dr x_mask y_mask gOpt hf]

theorem _forward_decoder_pos_independent (cfg : Config) (nets : Nets)
    (pe pe2 : Mat → Vec → Mat) (B t_x : ℕ) (o_en : ℕ → Mat) (dr : ℕ → ℕ → ℕ)
    (x_mask : ℕ → Vec) (y_lengths : ℕ → ℕ) (g : ℕ → Option Vec)
    (hf : cfg.positional_encoding = false) :
    _forward_decoder cfg { nets with pos_encoder := pe } B t_x o_en dr x_mask y_lengths g
      = _forward_decoder cfg { nets with pos_encoder := pe2 } B t_x o_en dr x_mask
          y_lengths g := by
  unfold _forward_decoder
  dsimp only
  have ho : (fun b => item_o_de cfg { nets with pos_encoder := pe } t_x (o_en b) (dr b)
        (x_mask b) (sequence_mask (y_lengths b)) (g b))
      = (fun b => item_o_de cfg { nets with pos_encoder := pe2 } t_x (o_en b) (dr b)
        (x_mask b) (sequence_mask (y_lengths b)) (g b)) :=
    funext fun b => item_o_de_pos_independent cfg nets pe pe2 t_x (o_en b) (dr b)
      (x_mask b) (sequence_mask (y_lengths b)) (g b) hf
  rw [ho]

theorem forward_pos_independent (cfg : Config) (nets : Nets)
    (pe pe2 : Mat → Vec → Mat) (B t_x : ℕ) (x : ℕ → ℕ → ℕ)
    (x_lengths y_lengths : ℕ → ℕ) (dr : ℕ → ℕ → ℕ) (g : ℕ → GInput)
    (hf : cfg.positional_encoding = false) :
    forward cfg { nets with pos_encoder := pe } B t_x x x_lengths y_lengths dr g
      = forward cfg { nets with pos_encoder := pe2 } B t_x x x_lengths y_lengths dr g := by
  unfold forward
  dsimp only
  rw [_forward_decoder_pos_independent cfg nets pe pe2 B t_x
    (fun b => (_forward_encoder cfg { nets with pos_encoder := pe } (x b) (x_lengths b) (g b)).o_en)
    dr
    (fun b => (_forward_encoder cfg { nets with pos_encoder := pe } (x b) (x_lengths b) (g b)).x_mask)
    y_lengths
    (fun b => (_forward_encoder cfg { nets with pos_encoder := pe } (x b) (x_lengths b) (g b)).g)
    hf]
  rfl

theorem inference_pos_independent (cfg : Config) (nets : Nets)
    (pe pe2 : Mat → Vec → Mat) (B t_x : ℕ) (x : ℕ → ℕ → ℕ)
    (x_lengths : ℕ → ℕ) (g : ℕ → GInput)
    (hf : cfg.positional_encoding = false) :
    inference cfg { nets with pos_encoder := pe } B t_x x x_lengths g
      = inference cfg { nets with pos_encoder := pe2 } B t_x x x_lengths g := by
  unfold inference
  dsimp only
  rw [_forward_decoder_pos_independent cfg nets pe pe2 B (t_x + 5)
    (fun b => (_forward_encoder cfg { nets with pos_encoder := pe }
      (pad_inference_input t_x (x b)) (x_lengths b) (g b)).o_en)
    (fun b => inference_durations cfg { nets with pos_encoder := pe } t_x (x b)
      (x_lengths b) (g b))
    (fun b => (_forward_encoder cfg { nets with pos_encoder := pe }
      (pad_inference_input t_x (x b)) (x_lengths b) (g b)).x_mask)
    (fun b => inference_y_length cfg { nets with pos_encoder := pe } t_x (x b)
      (x_lengths b) (g b))
    (fun b => (_forward_encoder cfg { nets with pos_encoder := pe }
      (pad_inference_input t_x (x b)) (x_lengths b) (g b)).g)
    hf]
  rfl

/-- C8: with positional encoding enabled, the positional encoding is
applied to the expanded frame-resolution representation, after alignment
expansion and before the decoder stack (and before the additive speaker
conditioning); with it disabled, the decoder receives the raw expanded
representation, and the whole forward and inference results are
independent of the positional-encoding function, so no positional
encoding is applied anywhere. -/
theorem C8_positional_encoding_placement (cfg cfg2 : Config) (nets : Nets)
    (pe pe2 : Mat → Vec → Mat) (t_x : ℕ) (o_en : Mat) (dr : ℕ → ℕ)
    (x_mask y_mask : Vec) (g0 : Vec) (gOpt : Option Vec) (B : ℕ)
    (x : ℕ → ℕ → ℕ) (x_lengths y_lengths : ℕ → ℕ) (drB : ℕ → ℕ → ℕ) (g : ℕ → GInput) :
    (cfg.positional_encoding = true →
      decoder_input cfg nets t_x o_en dr x_mask y_mask Option.none
        = nets.pos_encoder ((expand_encoder_outputs t_x o_en dr x_mask y_mask).1) y_mask) ∧
    (cfg.positional_encoding = true →
      decoder_input cfg nets t_x o_en dr x_mask y_mask (some g0)
        = _sum_speaker_embedding cfg nets
            (nets.pos_encoder ((expand_encoder_outputs t_x o_en dr x_mask y_mask).1) y_mask)
            g0) ∧
    (cfg2.positional_encoding = false →
      decoder_input cfg2 nets t_x o_en dr x_mask y_mask Option.none
        = (expand_encoder_outputs t_x o_en dr x_mask y_mask).1) ∧
    (cfg2.positional_encoding = false →
      decoder_input cfg2 { nets with pos_encoder := pe } t_x o_en dr x_mask y_mask gOpt
        = decoder_input cfg2 { nets with pos_encoder := pe2 } t_x o_en dr x_mask y_mask
            gOpt) ∧
    (cfg2.positional_encoding = false →
      forward cfg2 { nets with pos_encoder := pe } B t_x x x_lengths y_lengths drB g
        = forward cfg2 { nets with pos_encoder := pe2 } B t_x x x_lengths y_lengths drB g) ∧
    (cfg2.positional_encoding = false →
      inference cfg2 { nets with pos_encoder := pe } B t_x x x_lengths g
        = inference cfg2 { nets with pos_encoder := pe2 } B t_x x x_lengths g) :=
  ⟨decoder_input_flag_true_none cfg nets t_x o_en dr x_mask y_mask,
   decoder_input_flag_true_some cfg nets t_x o_en dr x_mask y_mask g0,
   decoder_input_flag_false_none cfg2 nets t_x o_en dr x_mask y_mask,
   decoder_input_pos_independent cfg2 nets pe pe2 t_x o_en dr x_mask y_mask gOpt,
   forward_pos_independent cfg2 nets pe pe2 B t_x x x_lengths y_lengths drB g,
   inference_pos_independent cfg2 nets pe pe2 B t_x x x_lengths g⟩

theorem C8_witness :
    decoder_input cfgPos netsA 1 enW drW (sequence_mask 1) (sequence_mask 2) Option.none
      = netsA.pos_encoder ((expand_encoder_outputs 1 enW drW (sequence_mask 1)
          (sequence_mask 2)).1) (sequence_mask 2) ∧
    decoder_input cfgA netsA 1 enW drW (sequence_mask 1) (sequence_mask 2) Option.none
      = (expand_encoder_outputs 1 enW drW (sequence_mask 1) (sequence_mask 2)).1 ∧
    forward cfgA { netsA with pos_encoder := fun m _ => m } 1 1 (fun _ _ => 0)
        (fun _ => 1) (fun _ => 2) (fun _ _ => 2) (fun _ => GInput.none)
      = forward cfgA { netsA with pos_encoder := fun _ _ => fun _ _ => 5 } 1 1 (fun _ _ => 0)
        (fun _ => 1) (fun _ => 2) (fun _ _ => 2) (fun _ => GInput.none) :=
  ⟨(C8_positional_encoding_placement cfgPos cfgA netsA (fun m _ => m) (fun _ _ => fun _ _ => 5)
      1 enW drW (sequence_mask 1) (sequence_mask 2) (fun _ => 0) Option.none 1 (fun _ _ => 0)
      (fun _ => 1) (fun _ => 2) (fun _ _ => 2) (fun _ => GInput.none)).1 rfl,
   (C8_positional_encoding_placement cfgPos cfgA netsA (fun m _ => m) (fun _ _ => fun _ _ => 5)
      1 enW drW (sequence_mask 1) (sequence_mask 2) (fun _ => 0) Option.none 1 (fun _ _ => 0)
      (fun _ => 1) (fun _ => 2) (fun _ _ => 2) (fun _ => GInput.none)).2.2.1 rfl,
   (C8_positional_encoding_placement cfgPos cfgA netsA (fun m _ => m) (fun _ _ => fun _ _ => 5)
      1 enW drW (sequence_mask 1) (sequence_mask 2) (fun _ => 0) Option.none 1 (fun _ _ => 0)
      (fun _ => 1) (fun _ => 2) (fun _ _ => 2) (fun _ => GInput.none)).2.2.2.2.1 rfl⟩

theorem item_o_de_grad_val (cfg : Config) (nets : Nets) (t_x : ℕ) (o_enG : GT Mat)
    (drG : GT (ℕ → ℕ)) (x_mask y_mask : Vec) (gG : Option (GT Vec)) :
    (item_o_de_grad cfg nets t_x o_enG drG x_mask y_mask gG).val
      = item_o_de cfg nets t_x o_enG.val drG.val x_mask y_mask (Option.map GT.val gG) := by
  cases gG with
  | none =>
    cases hpos : cfg.positional_encoding
    · simp only [item_o_de_grad, hpos, GT.app1, GT.map2, GT.map, Option.map,
        Bool.false_eq_true, if_false]
      unfold item_o_de
      rw [decoder_input_flag_false_none _ _ _ _ _ _ _ hpos]
    · simp only [item_o_de_grad, hpos, GT.app1, GT.map2, GT.map, Option.map, if_true]
      unfold item_o_de
      rw [decoder_input_flag_true_none _ _ _ _ _ _ _ hpos]
  | some g0 =>
    cases hpos : cfg.positional_encoding <;> cases hproj : has_proj_g cfg
    · simp only [item_o_de_grad, hpos, hproj, GT.app1, GT.map2, GT.map, Option.map,
        Bool.false_eq_true, if_false]
      unfold item_o_de
      rw [decoder_input_flag_false_some _ _ _ _ _ _ _ _ hpos]
      unfold _sum_speaker_embedding
      rw [hproj]
      simp
    · simp only [item_o_de_grad, hpos, hproj, GT.app1, GT.map2, GT.map, Option.map,
        Bool.false_eq_true, if_false, if_true]
      unfold item_o_de
      rw [decoder_input_flag_false_some _ _ _ _ _ _ _ _ hpos]
      unfold _sum_speaker_embedding
      rw [hproj]
      simp
    · simp only [item_o_de_grad, hpos, hproj, GT.app1, GT.map2, GT.map, Option.map,
        Bool.false_eq_true, if_false, if_true]
      unfold item_o_de
      rw [decoder_input_flag_true_some _ _ _ _ _ _ _ _ hpos]
      unfold _sum_speaker_embedding
      rw [hproj]
      simp
    · simp only [item_o_de_grad, hpos, hproj, GT.app1, GT.map2, GT.map, Option.map,
        if_true]
      unfold item_o_de
      rw [decoder_input_flag_true_some _ _ _ _ _ _ _ _ hpos]
      unfold _sum_speaker_embedding
      rw [hproj]
      simp

theorem mem_item_o_de_grad_srcs (cfg : Config) (nets : Nets) (t_x : ℕ) (o_enG : GT Mat)
    (drG : GT (ℕ → ℕ)) (x_mask y_mask : Vec) (gG : Option (GT Vec)) (p : Param)
    (hp : p ∈ o_enG.srcs) :
    p ∈ (item_o_de_grad cfg nets t_x o_enG drG x_mask y_mask gG).srcs := by
  cases gG with
  | none =>
    cases hpos : cfg.positional_encoding <;>
      simp [item_o_de_grad, hpos, GT.app1, GT.map2, GT.map] <;> tauto
  | some g0 =>
    cases hpos : cfg.positional_encoding <;> cases hproj : has_proj_g cfg <;>
      simp [item_o_de_grad, hpos, hproj, GT.app1, GT.map2, GT.map] <;> tauto

/-- C6: in both forward and inference, the duration predictor consumes a
detached copy of the speaker-conditioned encoder output: the input of the
duration branch carries no gradient sources, the predicted log-duration
depends only on the duration-predictor parameters (in particular not on
the encoder or embedding parameters), while the acoustic path still
back-propagates into the encoder, and the feature values equal those of
the plain (detach-free) value model; in training the features are
furthermore independent of the duration-predictor network. -/
theorem C6_duration_branch_detached (cfg : Config) (nets : Nets) (t_x : ℕ)
    (x : ℕ → ℕ) (x_len y_len : ℕ) (dr : ℕ → ℕ) (g : GInput) :
    (forward_grad cfg nets t_x x x_len y_len dr g).dur_in
        = GT.detach (forward_grad cfg nets t_x x x_len y_len dr g).o_en_dp ∧
    (forward_grad cfg nets t_x x x_len y_len dr g).dur_in.srcs = ∅ ∧
    (forward_grad cfg nets t_x x x_len y_len dr g).o_dr_log.srcs = {Param.dur} ∧
    Param.enc ∉ (forward_grad cfg nets t_x x x_len y_len dr g).o_dr_log.srcs ∧
    Param.emb ∉ (forward_grad cfg nets t_x x x_len y_len dr g).o_dr_log.srcs ∧
    Param.enc ∈ (forward_grad cfg nets t_x x x_len y_len dr g).o_de.srcs ∧
    (forward_grad cfg nets t_x x x_len y_len dr g).o_de.val
        = item_o_de cfg nets t_x (forward_grad cfg nets t_x x x_len y_len dr g).o_en.val
            dr (sequence_mask x_len) (sequence_mask y_len)
            (Option.map GT.val (resolve_g_grad cfg nets g)) ∧
    (∀ dp, (forward_grad cfg { nets with duration_predictor := dp } t_x x x_len y_len dr g).o_de
        = (forward_grad cfg nets t_x x x_len y_len dr g).o_de) ∧
    (inference_grad cfg nets t_x x x_len g).dur_in
        = GT.detach (inference_grad cfg nets t_x x x_len g).o_en_dp ∧
    (inference_grad cfg nets t_x x x_len g).dur_in.srcs = ∅ ∧
    (inference_grad cfg nets t_x x x_len g).o_dr_log.srcs = {Param.dur} ∧
    Param.enc ∉ (inference_grad cfg nets t_x x x_len g).o_dr_log.srcs ∧
    Param.enc ∈ (inference_grad cfg nets t_x x x_len g).o_de.srcs := by
  have hforde : Param.enc ∈ (forward_grad cfg nets t_x x x_len y_len dr g).o_de.srcs := by
    refine mem_item_o_de_grad_srcs cfg nets t_x _ _ _ _ _ Param.enc ?_
    cases hg : resolve_g_grad cfg nets g <;>
      simp [_forward_encoder_grad, hg, GT.app1, GT.map2]
  have hinfde : Param.enc ∈ (inference_grad cfg nets t_x x x_len g).o_de.srcs := by
    refine mem_item_o_de_grad_srcs cfg nets (t_x + 5) _ _ _ _ _ Param.enc ?_
    cases hg : resolve_g_grad cfg nets g <;>
      simp [_forward_encoder_grad, hg, GT.app1, GT.map2]
  refine ⟨rfl, rfl, ?_, ?_, ?_, hforde, ?_, fun dp => rfl, rfl, rfl, ?_, ?_, hinfde⟩
  · simp [forward_grad, GT.app1, GT.detach]
  · simp [forward_grad, GT.app1, GT.detach]
  · simp [forward_grad, GT.app1, GT.detach]
  · exact item_o_de_grad_val cfg nets t_x _ ⟨dr, ∅⟩ (sequence_mask x_len)
      (sequence_mask y_len) (resolve_g_grad cfg nets g)
  · simp [inference_grad, GT.app1, GT.detach]
  · simp [inference_grad, GT.app1, GT.detach]

theorem le_y_max_length (B : ℕ) (f : ℕ → ℕ) {b : ℕ} (hb : b < B) :
    f b ≤ y_max_length B f :=
  Finset.le_sup (Finset.mem_range.mpr hb)

/-- C10 counterexample: the original claim states that on the returned
(transposed) alignment matrix each row, that is each output frame, sums
to 1, and each column, that is each input token, sums to that token's
duration.  In a concrete inference run with one valid token of duration
1, the inferred output length is 6, yet row 1 (a genuine output frame,
since 1 < 6) sums to 0, and the column of token 1 (a padding position,
whose post-processed duration is 1) also sums to 0 rather than to its
duration: the path entries of padding tokens are zeroed by the input
mask. -/
theorem C10_counterexample :
    inference_y_length cfgA netsA 1 (fun _ => 0) 1 GInput.none = 6 ∧
    (1 : ℕ) < 6 ∧
    (∑ i in Finset.range 6,
      (inference cfgA netsA 1 1 (fun _ _ => 0) (fun _ => 1)
        (fun _ => GInput.none)).attn 0 1 i) ≠ 1 ∧
    inference_durations cfgA netsA 1 (fun _ => 0) 1 GInput.none 1 = 1 ∧
    (∑ j in Finset.range 6,
      (inference cfgA netsA 1 1 (fun _ _ => 0) (fun _ => 1)
        (fun _ => GInput.none)).attn 0 j 1)
      ≠ ((inference_durations cfgA netsA 1 (fun _ => 0) 1 GInput.none 1 : ℕ) : ℝ) := by
  have hattn : ∀ j i, (inference cfgA netsA 1 1 (fun _ _ => 0) (fun _ => 1)
        (fun _ => GInput.none)).attn 0 j i
      = generate_path (inference_durations cfgA netsA 1 (fun _ => 0) 1 GInput.none)
          (fun i2 j2 => sequence_mask 1 i2
            * sequence_mask (inference_y_length cfgA netsA 1 (fun _ => 0) 1 GInput.none) j2)
          i j := fun j i => rfl
  refine ⟨inference_y_length_cfgA, by norm_num, ?_, inference_durations_cfgA 1, ?_⟩
  · rw [Finset.sum_congr rfl fun i _ => hattn 1 i,
      generate_path_sum_tokens (inference_durations cfgA netsA 1 (fun _ => 0) 1 GInput.none)
        1 (inference_y_length cfgA netsA 1 (fun _ => 0) 1 GInput.none) 6 (by norm_num) 1]
    have hc : cum_dur (inference_durations cfgA netsA 1 (fun _ => 0) 1 GInput.none) 1 = 1 := by
      rw [cum_dur, Finset.sum_range_one, inference_durations_cfgA 0]
    rw [hc, if_neg (by norm_num), zero_mul]
    norm_num
  · rw [Finset.sum_congr rfl fun j _ => hattn j 1,
      generate_path_sum_frames_pad
        (inference_durations cfgA netsA 1 (fun _ => 0) 1 GInput.none) 1
        (inference_y_length cfgA netsA 1 (fun _ => 0) 1 GInput.none) 6 (le_refl 1),
      inference_durations_cfgA 1]
    norm_num

/-- C10 amended: the alignment returned by forward and by inference is
the transpose of the generated path, with shape (output length × input
length).  On the returned matrix, each column of a valid input token sums
to that token's duration.  Each row sums to 1 exactly for the output
frames lying within the total duration of the valid tokens: in training
with consistent durations that is every valid output frame, while in
inference the trailing output frames contributed by the padding
positions' clamped durations have row sum 0, and the column of a padding
token sums to 0 even though its post-processed duration is exactly 1. -/
theorem C10_amended_alignment_orientation (cfg : Config) (nets : Nets) (B t_x : ℕ)
    (x : ℕ → ℕ → ℕ) (x_lengths y_lengths : ℕ → ℕ) (dr : ℕ → ℕ → ℕ) (g : ℕ → GInput)
    (b j i : ℕ) (hb : b < B) (hxb : x_lengths b ≤ t_x)
    (_hdr0 : ∀ i2, x_lengths b ≤ i2 → dr b i2 = 0)
    (hsum : cum_dur (dr b) (x_lengths b) = y_lengths b) :
    ((forward cfg nets B t_x x x_lengths y_lengths dr g).attn b j i
      = (expand_encoder_outputs t_x
          (_forward_encoder cfg nets (x b) (x_lengths b) (g b)).o_en (dr b)
          (sequence_mask (x_lengths b)) (sequence_mask (y_lengths b))).2 i j) ∧
    ((inference cfg nets B t_x x x_lengths g).attn b j i
      = (expand_encoder_outputs (t_x + 5)
          (_forward_encoder cfg nets (pad_inference_input t_x (x b)) (x_lengths b) (g b)).o_en
          (inference_durations cfg nets t_x (x b) (x_lengths b) (g b))
          (sequence_mask (x_lengths b))
          (sequence_mask (inference_y_length cfg nets t_x (x b) (x_lengths b) (g b)))).2 i j) ∧
    (j < y_lengths b →
      (∑ i2 in Finset.range t_x,
        (forward cfg nets B t_x x x_lengths y_lengths dr g).attn b j i2) = 1) ∧
    (i < x_lengths b →
      (∑ j2 in Finset.range (y_max_length B y_lengths),
        (forward cfg nets B t_x x x_lengths y_lengths dr g).attn b j2 i)
        = ((dr b i : ℕ) : ℝ)) ∧
    (j < cum_dur (inference_durations cfg nets t_x (x b) (x_lengths b) (g b)) (x_lengths b) →
      (∑ i2 in Finset.range (t_x + 5),
        (inference cfg nets B t_x x x_lengths g).attn b j i2) = 1) ∧
    (cum_dur (inference_durations cfg nets t_x (x b) (x_lengths b) (g b)) (x_lengths b) ≤ j →
      (∑ i2 in Finset.range (t_x + 5),
        (inference cfg nets B t_x x x_lengths g).attn b j i2) = 0) ∧
    (i < x_lengths b →
      (∑ j2 in Finset.range (y_max_length B
          (fun b2 => inference_y_length cfg nets t_x (x b2) (x_lengths b2) (g b2))),
        (inference cfg nets B t_x x x_lengths g).attn b j2 i)
        = ((inference_durations cfg nets t_x (x b) (x_lengths b) (g b) i : ℕ) : ℝ)) ∧
    (x_lengths b ≤ i →
      (∑ j2 in Finset.range (y_max_length B
          (fun b2 => inference_y_length cfg nets t_x (x b2) (x_lengths b2) (g b2))),
        (inference cfg nets B t_x x x_lengths g).attn b j2 i) = 0) ∧
    (x_lengths b ≤ i →
      inference_durations cfg nets t_x (x b) (x_lengths b) (g b) i = 1) := by
  have hfa : ∀ j2 i2, (forward cfg nets B t_x x x_lengths y_lengths dr g).attn b j2 i2
      = generate_path (dr b) (fun i3 j3 => sequence_mask (x_lengths b) i3
          * sequence_mask (y_lengths b) j3) i2 j2 := fun j2 i2 => rfl
  have hia : ∀ j2 i2, (inference cfg nets B t_x x x_lengths g).attn b j2 i2
      = generate_path (inference_durations cfg nets t_x (x b) (x_lengths b) (g b))
          (fun i3 j3 => sequence_mask (x_lengths b) i3
            * sequence_mask (inference_y_length cfg nets t_x (x b) (x_lengths b) (g b)) j3)
          i2 j2 := fun j2 i2 => rfl
  have hY : cum_dur (inference_durations cfg nets t_x (x b) (x_lengths b) (g b)) (t_x + 5)
      = inference_y_length cfg nets t_x (x b) (x_lengths b) (g b) := rfl
  refine ⟨rfl, rfl, ?_, ?_, ?_, ?_, ?_, ?_, ?_⟩
  · intro hj
    rw [Finset.sum_congr rfl fun i2 _ => hfa j i2,
      generate_path_sum_tokens (dr b) (x_lengths b) (y_lengths b) t_x hxb j, hsum,
      if_pos hj, sequence_mask_of_lt hj, one_mul]
  · intro hi
    rw [Finset.sum_congr rfl fun j2 _ => hfa j2 i]
    have hcy : cum_dur (dr b) (i + 1) ≤ y_lengths b := by
      have := cum_dur_mono (dr b) (show i + 1 ≤ x_lengths b by omega)
      omega
    exact generate_path_sum_frames (dr b) (x_lengths b) (y_lengths b)
      (y_max_length B y_lengths) hi hcy
      (Finset.le_sup (Finset.mem_range.mpr hb))
  · intro hj
    rw [Finset.sum_congr rfl fun i2 _ => hia j i2,
      generate_path_sum_tokens (inference_durations cfg nets t_x (x b) (x_lengths b) (g b))
        (x_lengths b) (inference_y_length cfg nets t_x (x b) (x_lengths b) (g b)) (t_x + 5)
        (by omega) j, if_pos hj]
    have hjY : j < inference_y_length cfg nets t_x (x b) (x_lengths b) (g b) := by
      have hle := cum_dur_mono (inference_durations cfg nets t_x (x b) (x_lengths b) (g b))
        (show x_lengths b ≤ t_x + 5 by omega)
      omega
    rw [sequence_mask_of_lt hjY, one_mul]
  · intro hj
    rw [Finset.sum_congr rfl fun i2 _ => hia j i2,
      generate_path_sum_tokens (inference_durations cfg nets t_x (x b) (x_lengths b) (g b))
        (x_lengths b) (inference_y_length cfg nets t_x (x b) (x_lengths b) (g b)) (t_x + 5)
        (by omega) j, if_neg (not_lt.mpr hj), zero_mul]
  · intro hi
    rw [Finset.sum_congr rfl fun j2 _ => hia j2 i]
    have hcy : cum_dur (inference_durations cfg nets t_x (x b) (x_lengths b) (g b)) (i + 1)
        ≤ inference_y_length cfg nets t_x (x b) (x_lengths b) (g b) := by
      have hle := cum_dur_mono (inference_durations cfg nets t_x (x b) (x_lengths b) (g b))
        (show i + 1 ≤ t_x + 5 by omega)
      omega
    have hyt : inference_y_length cfg nets t_x (x b) (x_lengths b) (g b)
        ≤ y_max_length B
            (fun b2 => inference_y_length cfg nets t_x (x b2) (x_lengths b2) (g b2)) :=
      le_y_max_length B (fun b2 => inference_y_length cfg nets t_x (x b2) (x_lengths b2)
        (g b2)) hb
    exact generate_path_sum_frames
      (inference_durations cfg nets t_x (x b) (x_lengths b) (g b)) (x_lengths b)
      (inference_y_length cfg nets t_x (x b) (x_lengths b) (g b))
      (y_max_length B (fun b2 => inference_y_length cfg nets t_x (x b2) (x_lengths b2) (g b2)))
      hi hcy hyt
  · intro hi2
    rw [Finset.sum_congr rfl fun j2 _ => hia j2 i]
    exact generate_path_sum_frames_pad
      (inference_durations cfg nets t_x (x b) (x_lengths b) (g b)) (x_lengths b)
      (inference_y_length cfg nets t_x (x b) (x_lengths b) (g b))
      (y_max_length B (fun b2 => inference_y_length cfg nets t_x (x b2) (x_lengths b2) (g b2)))
      hi2
  · intro hi2
    have hred : inference_durations cfg nets t_x (x b) (x_lengths b) (g b) i
        = format_durations_nat cfg.length_scale
            (nets.duration_predictor
              (_forward_encoder cfg nets (pad_inference_input t_x (x b)) (x_lengths b)
                (g b)).o_en_dp
              (sequence_mask (x_lengths b)) i)
            (sequence_mask (x_lengths b) i) := rfl
    rw [hred, sequence_mask_of_le hi2, format_durations_nat_mask_zero]

theorem C10_witness :
    (0 < 1 ∧ (2 : ℕ) ≤ 3 ∧ cum_dur drW 2 = 3) ∧
    (∑ i2 in Finset.range 3,
      (forward cfgA netsA 1 3 (fun _ _ => 0) (fun _ => 2) (fun _ => 3) (fun _ => drW)
        (fun _ => GInput.none)).attn 0 0 i2) = 1 ∧
    (∑ j2 in Finset.range (y_max_length 1 (fun _ => 3)),
      (forward cfgA netsA 1 3 (fun _ _ => 0) (fun _ => 2) (fun _ => 3) (fun _ => drW)
        (fun _ => GInput.none)).attn 0 j2 0) = ((drW 0 : ℕ) : ℝ) ∧
    (∑ j2 in Finset.range (y_max_length 1
        (fun _ => inference_y_length cfgA netsA 3 (fun _ => 0) 2 GInput.none)),
      (inference cfgA netsA 1 3 (fun _ _ => 0) (fun _ => 2)
        (fun _ => GInput.none)).attn 0 j2 2) = 0 ∧
    inference_durations cfgA netsA 3 (fun _ => 0) 2 GInput.none 2 = 1 := by
  have hdr0 : ∀ i2, 2 ≤ i2 → drW i2 = 0 := by
    intro i2 hi2
    unfold drW
    rw [if_neg (by omega), if_neg (by omega)]
  have hsum : cum_dur drW 2 = 3 := by decide
  refine ⟨⟨by norm_num, by norm_num, hsum⟩, ?_, ?_, ?_, ?_⟩
  · exact (C10_amended_alignment_orientation cfgA netsA 1 3 (fun _ _ => 0) (fun _ => 2)
      (fun _ => 3) (fun _ => drW) (fun _ => GInput.none) 0 0 0 (by norm_num) (by norm_num)
      hdr0 hsum).2.2.1 (by norm_num)
  · exact (C10_amended_alignment_orientation cfgA netsA 1 3 (fun _ _ => 0) (fun _ => 2)
      (fun _ => 3) (fun _ => drW) (fun _ => GInput.none) 0 0 0 (by norm_num) (by norm_num)
      hdr0 hsum).2.2.2.1 (by norm_num)
  · exact (C10_amended_alignment_orientation cfgA netsA 1 3 (fun _ _ => 0) (fun _ => 2)
      (fun _ => 3) (fun _ => drW) (fun _ => GInput.none) 0 0 2 (by norm_num) (by norm_num)
      hdr0 hsum).2.2.2.2.2.2.2.1 (by norm_num)
  · exact (C10_amended_alignment_orientation cfgA netsA 1 3 (fun _ _ => 0) (fun _ => 2)
      (fun _ => 3) (fun _ => drW) (fun _ => GInput.none) 0 0 2 (by norm_num) (by norm_num)
      hdr0 hsum).2.2.2.2.2.2.2.2 (by norm_num)

end SpeedySpeechModel
